import Mathlib

/-!
# Garden31LogSync — verification of the ingestion pipeline

A shallow embedding of `src/main.py` (and the webhook handler of
`src/server.py`) of the Garden31LogSync repository, with theorems checking
the natural-language specification's claims against it.

Conventions of the embedding:

* A pandas cell is either a string or the missing marker `NaN`; `PCell`
  models this (`PCell.na` is `NaN`).  Python's `str(nan)` is the string
  `"nan"`, which `cellStr` reproduces.
* Python dictionaries built by comprehension are modelled as association
  lists; a lookup takes the value of the *last* binding of a key (Python
  dict insertion overwrites), and the key set keeps first-occurrence order.
* Fallible Python code (exceptions) is modelled with `Option` / `Except`.
* `dateutil.parser.parse` (a third-party permissive date parser, an
  external collaborator) is a parameter `fb : String → Option Ymd` of
  every definition that uses it; `none` models a raised exception.
-/

/-! ## Python string primitives

The Python string methods the source uses (`strip`, `lower`, `split`,
`replace`, `endswith`, lexicographic comparison, digit-string value) are
modelled directly over the character list of a `String`, by structural
recursion, so that every definition evaluates on concrete input. -/

/-- Python `str.strip()`: drop leading and trailing whitespace. -/
def pyStrip (s : String) : String :=
  String.mk (((s.data.dropWhile Char.isWhitespace).reverse.dropWhile
    Char.isWhitespace).reverse)

/-- Python `str.lower()` (ASCII range, all the data here needs). -/
def pyLower (s : String) : String :=
  String.mk (s.data.map Char.toLower)

/-- Worker of `pySplit`: scan for the (non-empty) separator, cutting a
new part at each non-overlapping occurrence; `fuel` bounds the scan and
exceeds the input length at every call. -/
def pySplitGo (sep : List Char) : Nat → List Char → List Char → List (List Char)
  | 0, acc, _ => [acc.reverse]
  | _ + 1, acc, [] => [acc.reverse]
  | fuel + 1, acc, c :: rest =>
    if sep.isPrefixOf (c :: rest) then
      acc.reverse :: pySplitGo sep fuel [] ((c :: rest).drop sep.length)
    else
      pySplitGo sep fuel (c :: acc) rest

/-- Python `s.split(sep)` for a non-empty separator. -/
def pySplit (s sep : String) : List String :=
  (pySplitGo sep.data (s.data.length + 1) [] s.data).map String.mk

/-- Worker of `pyReplace`, same scanning scheme as `pySplitGo`. -/
def pyReplaceGo (pat repl : List Char) : Nat → List Char → List Char
  | 0, _ => []
  | _ + 1, [] => []
  | fuel + 1, c :: rest =>
    if pat.isPrefixOf (c :: rest) then
      repl ++ pyReplaceGo pat repl fuel ((c :: rest).drop pat.length)
    else
      c :: pyReplaceGo pat repl fuel rest

/-- Python `s.replace(pat, repl)` for a non-empty pattern. -/
def pyReplace (s pat repl : String) : String :=
  String.mk (pyReplaceGo pat.data repl.data (s.data.length + 1) s.data)

/-- Python `s.endswith(suffix)`. -/
def pyEndsWith (s suffix : String) : Bool :=
  suffix.data.isSuffixOf s.data

/-- Lexicographic comparison of character lists by code point. -/
def charListLe : List Char → List Char → Bool
  | [], _ => true
  | _ :: _, [] => false
  | a :: as, b :: bs =>
    if a < b then true
    else if b < a then false
    else charListLe as bs

/-- Python `s1 <= s2` on strings (code-point lexicographic). -/
def strLe (a b : String) : Bool :=
  charListLe a.data b.data

/-- The numeric value of an all-digits string (what `int`/`strptime`
read off a matched digit group). -/
def digitsToNat (l : List Char) : Nat :=
  l.foldl (fun n c => n * 10 + (c.toNat - 48)) 0

/-- A pandas cell: a string value or the `NaN` missing marker. -/
inductive PCell : Type where
  | na : PCell
  | s (v : String) : PCell
deriving DecidableEq, Repr

/-- Python `str(value)` on a cell: `str(nan)` is `"nan"`. -/
def cellStr : PCell → String
  | .na => "nan"
  | .s v => v

/-- A row mapping (Python dict of header name to cell text), as an
association list.  Duplicate keys may occur textually; lookup follows
Python dict semantics (last binding wins). -/
def RowDict : Type := List (String × String)

/-- Python dict lookup: the value of the last binding of `k`, if any. -/
def dget (d : RowDict) (k : String) : Option String :=
  (d.reverse.find? (fun p => p.1 == k)).map (·.2)

/-- DataFrame cell access for a row: a key the row does not carry reads
back as `NaN` (pandas fills missing keys with `NaN` when assembling a
frame from a list of dicts). -/
def dcell (d : RowDict) (k : String) : PCell :=
  match dget d k with
  | some v => .s v
  | none => .na

/-- The key set of a row dict, in first-occurrence order (Python dict
comprehension keeps the first position of a repeated key). -/
def dkeys (d : RowDict) : List String :=
  (d.map Prod.fst).foldl (fun acc k => if k ∈ acc then acc else acc ++ [k]) []

/-- A calendar date as year/month/day numerals. -/
abbrev Ymd : Type := Nat × Nat × Nat

/-- Left-pad the decimal numeral of `n` with zeros to width `w`
(`"%04d"`-style). -/
def padNum (w n : Nat) : String :=
  let s := Nat.repr n
  String.mk (List.replicate (w - s.length) '0') ++ s

/-- Python `date.isoformat()`: `YYYY-MM-DD` with zero padding. -/
def isoDate (d : Ymd) : String :=
  padNum 4 d.1 ++ "-" ++ padNum 2 d.2.1 ++ "-" ++ padNum 2 d.2.2

/-- Gregorian leap year, as Python `datetime` computes it. -/
def isLeap (y : Nat) : Bool :=
  (y % 4 == 0 && y % 100 != 0) || y % 400 == 0

/-- Days in a month of a year, as Python `datetime` validates them. -/
def daysInMonth (y m : Nat) : Nat :=
  if m == 2 then (if isLeap y then 29 else 28)
  else if m == 4 || m == 6 || m == 9 || m == 11 then 30
  else 31

/-- All characters of `s` are decimal digits. -/
def allDigits (s : String) : Bool :=
  s.data.all Char.isDigit

/-- `datetime.strptime(s, "%m/%d/%Y")` followed by `.date()`:
CPython's `_strptime` matches `%m` against one or two digits valued
1–12, `%d` against one or two digits valued 1–31, `%Y` against exactly
four digits, with literal `/` between and nothing left over; the
`datetime` constructor then rejects year 0 and a day beyond the month's
length.  `none` models the raised `ValueError`. -/
def strptime_mdY (s : String) : Option Ymd :=
  match pySplit s "/" with
  | [ms, ds, ys] =>
    if allDigits ms && decide (1 ≤ ms.length) && decide (ms.length ≤ 2) &&
       allDigits ds && decide (1 ≤ ds.length) && decide (ds.length ≤ 2) &&
       allDigits ys && decide (ys.length = 4) then
      let m := digitsToNat ms.data
      let d := digitsToNat ds.data
      let y := digitsToNat ys.data
      if 1 ≤ m && m ≤ 12 && 1 ≤ d && d ≤ 31 && 1 ≤ y && d ≤ daysInMonth y m then
        some (y, m, d)
      else none
    else none
  | _ => none

/-- `parse_date` of `src/main.py`: `None`/`NaN`/blank input yields
absence; otherwise a strict `%m/%d/%Y` parse is attempted, then the
permissive `dateutil` fallback `fb`, and failure of both yields absence.
Total by construction — exceptions are caught into `none`. -/
def parse_date (fb : String → Option Ymd) (value : PCell) : Option String :=
  match value with
  | .na => none
  | .s v =>
    let s := pyStrip v
    if s = "" then none
    else
      match strptime_mdY s with
      | some d => some (isoDate d)
      | none => (fb s).map isoDate

/-- `to_number` of `src/main.py`: trims, drops empties, strips commas,
and returns the cleaned numeric *string*.  The cells it receives come
from a pandas frame, so the missing marker stringifies to `"nan"`
(Python `None` cannot reach it there). -/
def to_number (value : PCell) : Option String :=
  let s := pyStrip (cellStr value)
  if s = "" then none else some (pyReplace s "," "")

/-- `split_planting` of `src/main.py`: split on the literal `" - "`,
trim the parts, drop empty parts, and take the first two. -/
def split_planting (value : PCell) : Option String × Option String :=
  let s := pyStrip (cellStr value)
  if s = "" then (none, none)
  else
    let parts := ((pySplit s " - ").map pyStrip).filter (fun p => p ≠ "")
    (parts.get? 0, parts.get? 1)

/-! ## SectionedCsvReader (`read_tend_multisection_csv`) -/

/-- `clean_headers` of `src/main.py`: trim every cell, then pop trailing
empty cells. -/
def clean_headers (headers : List String) : List String :=
  ((headers.map pyStrip).reverse.dropWhile (fun h => h == "")).reverse

/-- `row_to_dict` of `src/main.py`: truncate the row to the header count
or pad it with empty strings, then zip headers with cells. -/
def row_to_dict (headers row : List String) : RowDict :=
  let r :=
    if headers.length < row.length then row.take headers.length
    else row ++ List.replicate (headers.length - row.length) ""
  headers.zip r

/-- A physical row whose first cell, trimmed, is the section sentinel
`"Task Id"` (the empty row is handled before this test in the reader). -/
def isHeaderRow (row : List String) : Bool :=
  match row with
  | [] => false
  | c :: _ => pyStrip c == "Task Id"

/-- The reader's loop over physical rows, carrying the current section
header (`None` until the first sentinel row).  Empty rows are skipped; a
sentinel row installs a new cleaned header and is not emitted; rows
before the first header are skipped; otherwise the row is zipped against
the current header and kept only when its `"Task Id"` value is
non-empty. -/
def readGo : Option (List String) → List (List String) → List RowDict
  | _, [] => []
  | cur, row :: rest =>
    if row.isEmpty then readGo cur rest
    else if isHeaderRow row then readGo (some (clean_headers row)) rest
    else
      match cur with
      | none => readGo none rest
      | some hdrs =>
        let d := row_to_dict hdrs row
        match dget d "Task Id" with
        | none => readGo (some hdrs) rest
        | some v => if v = "" then readGo (some hdrs) rest else d :: readGo (some hdrs) rest

/-- `read_tend_multisection_csv` of `src/main.py`, over the already
csv-decoded physical rows: collect all data rows after each `"Task Id"`
header line. -/
def read_tend_multisection_csv (rows : List (List String)) : List RowDict :=
  readGo none rows

/-- Dropping a prefix cannot lengthen a list (used for termination of
`splitSections`). -/
theorem dropWhile_length_le {α : Type} (p : α → Bool) (l : List α) :
    (l.dropWhile p).length ≤ l.length := by
  induction l with
  | nil => simp [List.dropWhile]
  | cons x xs ih =>
    by_cases h : p x
    · simpa [List.dropWhile, h] using Nat.le_succ_of_le ih
    · simp [List.dropWhile, h]

/-- Reformulation of the reader from the specification's words: the
stream is cut into sections, each delimited by a sentinel header row and
running up to (not including) the next sentinel row or end-of-stream;
rows before the first header do not belong to any section. -/
def splitSections : List (List String) → List (List String × List (List String))
  | [] => []
  | row :: rest =>
    if isHeaderRow row then
      (clean_headers row, rest.takeWhile (fun r => !(isHeaderRow r))) ::
        splitSections (rest.dropWhile (fun r => !(isHeaderRow r)))
    else splitSections rest
termination_by l => l.length
decreasing_by
  · exact Nat.lt_succ_of_le (dropWhile_length_le _ _)
  · exact Nat.lt_succ_self _

/-- Emission of one data row of a section, from the specification's
words: skip an empty physical row, zip against the section's cleaned
header, and discard a mapping whose value under the sentinel key is
missing or empty. -/
def emitRow (hdrs : List String) (row : List String) : Option RowDict :=
  if row.isEmpty then none
  else
    let d := row_to_dict hdrs row
    match dget d "Task Id" with
    | none => none
    | some v => if v = "" then none else some d

/-- The specification's reader: the data rows of each section in order. -/
def specReader (rows : List (List String)) : List RowDict :=
  (splitSections rows).flatMap (fun sec => sec.2.filterMap (emitRow sec.1))

/-! ## RecordTransformer (`transform`) -/

/-- One output record of `transform` (a row of the `out` frame, after
`replace` of the empty string by `None` and the null-normalization);
every field is optional. -/
structure OutRec : Type where
  tendId : Option String
  taskType : Option String
  date : Option String
  plantName : Option String
  variety : Option String
  quantity : Option String
  location : Option String
  spacing : Option String
deriving DecidableEq, Repr

/-- The structural-validation error of `transform`: the missing logical
columns and the physical columns actually present (both sorted). -/
structure ColumnsError : Type where
  missing : List String
  available : List String
deriving DecidableEq, Repr

/-- The required logical columns of `transform` (`required_base`; a
Python set — its iteration order is immaterial because the missing list
is sorted before it is reported). -/
def requiredBase : List String :=
  ["Task Id", "Task Type", "Start Date", "Planting", "Seeds Needed", "Location"]

/-- `df_columns_lower` lookup: the physical column whose lowercase form
is `k`.  The Python dict comprehension lets a later column override an
earlier one with the same lowercase form, hence the reverse search. -/
def lookupLower (cols : List String) (k : String) : Option String :=
  (cols.reverse.find? (fun c => pyLower c == k)).map id

/-- Insertion of a string into a ≤-sorted list (ascending). -/
def insStr (x : String) : List String → List String
  | [] => [x]
  | y :: ys => if strLe x y then x :: y :: ys else y :: insStr x ys

/-- Python `sorted` on strings (ascending lexicographic). -/
def sortStr (l : List String) : List String :=
  l.foldr insStr []

/-- Python `"" → None` conversion applied by `out.replace` after the
per-column construction. -/
def blankToNone (s : String) : Option String :=
  if s = "" then none else some s

/-- The per-row body of `transform`, given the resolved physical column
names: strip identity, task type and location; coerce the date (with
permissive fallback `fb`); split the planting composite; clean the
quantity and spacing numerals; then apply the empty-string-to-absent
replacement to every field. -/
def transformRow (fb : String → Option Ymd)
    (tidCol ttCol sdCol plCol snCol locCol : String)
    (spacingCol : Option String) (row : RowDict) : OutRec :=
  { tendId := blankToNone (pyStrip (cellStr (dcell row tidCol)))
    taskType := blankToNone (pyStrip (cellStr (dcell row ttCol)))
    date := (parse_date fb (dcell row sdCol)).bind blankToNone
    plantName := (split_planting (dcell row plCol)).1.bind blankToNone
    variety := (split_planting (dcell row plCol)).2.bind blankToNone
    quantity := (to_number (dcell row snCol)).bind blankToNone
    location := blankToNone (pyStrip (cellStr (dcell row locCol)))
    spacing := (spacingCol.bind (fun c => to_number (dcell row c))).bind blankToNone }

/-- The required logical columns with no case-insensitive match among
the physical columns (`missing_required` of `transform`). -/
def missingRequired (cols : List String) : List String :=
  requiredBase.filter (fun rc => (lookupLower cols (pyLower rc)).isNone)

/-- The optional spacing column: the four accepted spellings lower to
two distinct keys, tried in turn (`spacing_col` of `transform`). -/
def findSpacingCol (cols : List String) : Option String :=
  match lookupLower cols "in-row spacing" with
  | some c => some c
  | none => lookupLower cols "in row spacing"

/-- `transform` of `src/main.py` over the aggregate column list and the
collected rows: validate the required logical columns once (case-
insensitively) and abort with the sorted missing list and the sorted
available list if any is absent; resolve the optional spacing column;
build one output record per row; finally drop rows whose `"Tend ID"` is
absent. -/
def transform (fb : String → Option Ymd) (cols : List String)
    (rows : List RowDict) : Except ColumnsError (List OutRec) :=
  if (missingRequired cols).isEmpty then
    let tidCol := (lookupLower cols "task id").getD ""
    let ttCol := (lookupLower cols "task type").getD ""
    let sdCol := (lookupLower cols "start date").getD ""
    let plCol := (lookupLower cols "planting").getD ""
    let snCol := (lookupLower cols "seeds needed").getD ""
    let locCol := (lookupLower cols "location").getD ""
    let out := rows.map
      (transformRow fb tidCol ttCol sdCol plCol snCol locCol (findSpacingCol cols))
    .ok (out.filter (fun r => r.tendId ≠ none))
  else
    .error { missing := sortStr (missingRequired cols), available := sortStr cols }

/-- The aggregate column list of the frame `pd.DataFrame(all_rows)`
builds: the union of the rows' key sets in first-appearance order. -/
def dfColumns (rows : List RowDict) : List String :=
  rows.foldl (fun acc row => acc ++ ((dkeys row).filter (fun k => k ∉ acc))) []

/-! ## CategoryRouter (the two filters of `main`) -/

/-- Group-A membership test of `main`:
`norm["task_type"].str.lower() == "container sow"` (an absent task type
compares as `NaN`, never equal). -/
def routeA (r : OutRec) : Bool :=
  match r.taskType with
  | none => false
  | some t => pyLower t == "container sow"

/-- Group-B membership test of `main`:
`norm["task_type"].str.lower().isin(["transplant", "precision sow"])`. -/
def routeB (r : OutRec) : Bool :=
  match r.taskType with
  | none => false
  | some t => pyLower t == "transplant" || pyLower t == "precision sow"

/-- `map_direct_transplant` of `src/main.py`: the derived
`"Direct/Transplant"` label of group B. -/
def map_direct_transplant (tt : Option String) : Option String :=
  match tt with
  | none => none
  | some v =>
    let t := pyLower (pyStrip v)
    if t == "transplant" then some "Transplant"
    else if t == "precision sow" then some "Direct"
    else none

/-- The persisted projection of a group-A record (`gh_rows` of `main`):
the five listed columns, in order. -/
def ghPayload (r : OutRec) : List (String × Option String) :=
  [("Tend ID", r.tendId), ("Date", r.date), ("Plant Name", r.plantName),
   ("Variety", r.variety), ("Quantity", r.quantity)]

/-- The persisted projection of a group-B record (`row_payload` of
`main`): the seven listed columns, in order, with the derived label. -/
def rowPayload (r : OutRec) : List (String × Option String) :=
  [("Tend ID", r.tendId), ("Date", r.date), ("Plant Name", r.plantName),
   ("Variety", r.variety), ("Location", r.location), ("Spacing", r.spacing),
   ("Direct/Transplant", map_direct_transplant r.taskType)]

/-! ## RemoteFileResolver — suffix filter, latest-file selection -/

/-- A remote file descriptor, with `lastModified` standing for the
parsed `lastModifiedDateTime` (the `dateutil` parse of the timestamp
string is an order embedding, so a numeric stand-in carries the
comparisons the code performs). -/
structure RemoteItem : Type where
  name : String
  id : String
  driveId : String
  lastModified : Nat
deriving DecidableEq, Repr

/-- The suffix filter closing `list_csv_files` of `src/main.py`:
`it.get("name", "").lower().endswith(".csv")`. -/
def list_csv_files (items : List RemoteItem) : List RemoteItem :=
  items.filter (fun it => pyEndsWith (pyLower it.name) ".csv")

/-- One insertion step of a stable descending sort by `lastModified`:
an element is placed before the first element it is ≥, so that, among
equal keys, the element originally earlier stays earlier. -/
def insertDesc (x : RemoteItem) : List RemoteItem → List RemoteItem
  | [] => [x]
  | y :: ys => if y.lastModified ≤ x.lastModified then x :: y :: ys else y :: insertDesc x ys

/-- Python `sorted(items, key=lastModified, reverse=True)`: a stable
descending sort (Python's sort is stable, also under `reverse=True`). -/
def sortDesc (l : List RemoteItem) : List RemoteItem :=
  l.foldr insertDesc []

/-- The selection step of `fetch_latest_csv` of `src/main.py`: filter to
`.csv` names, sort descending by last-modified, take the head; `none`
models the early `return None` when no file matches. -/
def fetch_latest_csv (items : List RemoteItem) : Option RemoteItem :=
  (sortDesc (list_csv_files items)).head?

/-- Keep the incumbent `b` unless the candidate `a` is strictly more
recent. -/
def maxStep (b a : RemoteItem) : RemoteItem :=
  if b.lastModified < a.lastModified then a else b

/-- The first element of a list attaining the maximal `lastModified`
(the fold keeps the incumbent on ties). -/
def firstMax : List RemoteItem → Option RemoteItem
  | [] => none
  | x :: xs => some (xs.foldl maxStep x)

/-! ## RemoteFileResolver — direct path lookup and segment walk -/

/-- A drive item as the remote store reports it: a file, or a folder
with its children listing (the presence of the `folder` facet is what
the code tests with `"folder" in item`). -/
inductive DriveItem : Type where
  | file (name id : String) : DriveItem
  | dir (name id : String) (children : List DriveItem) : DriveItem

/-- The `name` of a drive item. -/
def DriveItem.itemName : DriveItem → String
  | .file n _ => n
  | .dir n _ _ => n

/-- Whether a drive item carries the folder facet. -/
def DriveItem.isFolder : DriveItem → Bool
  | .file _ _ => false
  | .dir _ _ _ => true

/-- Modelled from the spec: the remote store's direct path lookup
(`root:{path}:/children`), which `src/main.py` only invokes as one HTTP
call.  Each segment resolves to the child of that name; a segment that
resolves to a non-folder, or to nothing, fails the lookup; the result is
the final folder's children listing. -/
def directLookup : List String → List DriveItem → Option (List DriveItem)
  | [], items => some items
  | seg :: rest, items =>
    match items.find? (fun it => it.itemName == seg) with
    | some (.dir _ _ cs) => directLookup rest cs
    | _ => none

/-- The fallback traversal of `list_csv_files` of `src/main.py` (lines
146–193): starting from the drive root's children, find at each level
the first child whose name equals the segment and which is a folder,
descend into its children, and answer with the final folder's children;
a missing segment fails the run, and so does an empty segment list (the
final folder identifier is then never set). -/
def segmentWalk : List String → List DriveItem → Option (List DriveItem)
  | [], _ => none
  | seg :: rest, items =>
    match items.find? (fun it => it.itemName == seg && it.isFolder) with
    | some (.dir _ _ cs) => if rest.isEmpty then some cs else segmentWalk rest cs
    | _ => none

/-! ## Webhook handler (`src/server.py`) and the pipeline run -/

/-- The pipeline's observable effects on the world outside the process:
temporary-file creation and removal, and batch upserts. -/
inductive Eff : Type where
  | createTemp (path : String) : Eff
  | removeTemp (path : String) : Eff
  | upsert (table : String) (rows : Nat) : Eff
deriving DecidableEq, Repr

/-- A fatal pipeline error (the propagated Python exception). -/
inductive PipeErr : Type where
  | badColumns (e : ColumnsError) : PipeErr
deriving DecidableEq, Repr

/-- The environment of one pipeline invocation: the folder listing the
resolver sees, the csv-decoded content of each downloadable item, the
path `tempfile.mkstemp` hands out, and the permissive date parser. -/
structure Env : Type where
  items : List RemoteItem
  content : String → List (List String)
  tmpPath : String
  fb : String → Option Ymd

/-- `main` of `src/main.py` as a trace of effects plus an outcome:
resolve the latest CSV (clean exit when none); download it into a fresh
temporary file; parse the sections (clean exit when no rows); transform
(a column error aborts the run); route and upsert the two groups, each
skipped when empty.  No branch removes the temporary file, because the
source never does. -/
def mainRun (env : Env) : List Eff × Except PipeErr Unit :=
  match fetch_latest_csv env.items with
  | none => ([], .ok ())
  | some it =>
    let tr := [Eff.createTemp env.tmpPath]
    let raw := read_tend_multisection_csv (env.content it.id)
    if raw.isEmpty then (tr, .ok ())
    else
      match transform env.fb (dfColumns raw) raw with
      | .error e => (tr, .error (.badColumns e))
      | .ok norm =>
        let gh := norm.filter routeA
        let rw := norm.filter routeB
        let e1 := if gh.isEmpty then [] else [Eff.upsert "gh_planting_log" gh.length]
        let e2 := if rw.isEmpty then [] else [Eff.upsert "row_planting_log" rw.length]
        (tr ++ e1 ++ e2, .ok ())

/-- Modelled from the spec: `run_sync`, imported by `src/server.py` from
`main` but not defined under `src/`; the spec describes it as one
synchronous pipeline invocation, so it is the pipeline run (its single
argument, passed as `None` by the handler, is unused). -/
def run_sync (env : Env) (_arg : Option String) : List Eff × Except PipeErr Unit :=
  mainRun env

/-- The webhook's HTTP responses: the acknowledgement JSON body
(`status: ok`) of the notification route. -/
inductive WebhookResponse : Type where
  | ok : WebhookResponse
deriving DecidableEq, Repr

/-- `graph_notifications` of `src/server.py`: read the body, schedule
one background task `run_sync(None)`, and answer the acknowledgement at
once.  The result pairs the response with the argument list of the
scheduled pipeline runs; the response is computed before any scheduled
task executes, so it cannot depend on the run's outcome. -/
def graph_notifications (_body : String) : WebhookResponse × List (Option String) :=
  (WebhookResponse.ok, [none])

/-- Whether an effect is a temporary-file removal. -/
def isRemoveEff : Eff → Bool
  | .removeTemp _ => true
  | _ => false

/-- A concrete successful invocation: one remote CSV whose content holds
one section with one Container Sow row. -/
def demoEnv : Env where
  items := [{ name := "Tend-2024.csv", id := "item1", driveId := "drive1", lastModified := 10 }]
  content := fun _ =>
    [["Task Id", "Task Type", "Start Date", "Planting", "Seeds Needed", "Location"],
     ["1", "Container Sow", "03/14/2024", "Beans - V", "3", "L1"]]
  tmpPath := "/tmp/tend.csv"
  fb := fun _ => none

/-! ## Helper lemmas -/

/-- A header row is never the empty row. -/
theorem isHeaderRow_ne_nil {row : List String} (h : isHeaderRow row = true) :
    row.isEmpty = false := by
  cases row with
  | nil => simp [isHeaderRow] at h
  | cons c cs => simp [List.isEmpty]

/-- The in-section loop of the reader, restated through the section's
extent: it consumes rows up to the next header, emitting with the
current header, and then restarts with no header installed. -/
theorem readGo_some (hdrs : List String) : ∀ rows : List (List String),
    readGo (some hdrs) rows =
      (rows.takeWhile (fun r => !(isHeaderRow r))).filterMap (emitRow hdrs) ++
        readGo none (rows.dropWhile (fun r => !(isHeaderRow r))) := by
  intro rows
  induction rows with
  | nil => simp [readGo]
  | cons row rest ih =>
    by_cases hH : isHeaderRow row = true
    · have hne := isHeaderRow_ne_nil hH
      simp only [readGo, hne, hH, List.takeWhile, List.dropWhile, Bool.not_true,
        if_false, List.filterMap_nil, List.nil_append]
      simp
    · have hH' : isHeaderRow row = false := by simpa using hH
      by_cases he : row.isEmpty = true
      · have hrow : row = [] := by simpa [List.isEmpty_iff] using he
        subst hrow
        simp only [readGo, List.takeWhile, List.dropWhile, isHeaderRow, Bool.not_false,
          if_true, List.filterMap]
        simpa [emitRow] using ih
      · have he' : row.isEmpty = false := by simpa using he
        simp only [readGo, he', hH', List.takeWhile, List.dropWhile, Bool.not_false, if_true]
        simp only [List.filterMap]
        have hemit : emitRow hdrs row =
            match dget (row_to_dict hdrs row) "Task Id" with
            | none => none
            | some v => if v = "" then none else some (row_to_dict hdrs row) := by
          simp [emitRow, he']
        rw [hemit]
        cases hdg : dget (row_to_dict hdrs row) "Task Id" with
        | none => simpa using ih
        | some v =>
          by_cases hv : v = ""
          · simp [hv, ih]
          · simp [hv, ih]

/-- The reader agrees with the section-wise specification reader
(auxiliary form, with a fuel bound for the induction). -/
theorem readGo_none_aux : ∀ (n : Nat) (rows : List (List String)),
    rows.length ≤ n → readGo none rows = specReader rows := by
  intro n
  induction n with
  | zero =>
    intro rows h
    have hnil : rows = [] := List.eq_nil_of_length_eq_zero (Nat.le_zero.mp h)
    subst hnil
    simp [readGo, specReader, splitSections]
  | succ n ih =>
    intro rows h
    cases rows with
    | nil => simp [readGo, specReader, splitSections]
    | cons row rest =>
      by_cases hH : isHeaderRow row = true
      · have hne := isHeaderRow_ne_nil hH
        have h1 : readGo none (row :: rest) = readGo (some (clean_headers row)) rest := by
          simp [readGo, hne, hH]
        have h2 : specReader (row :: rest) =
            (rest.takeWhile (fun r => !(isHeaderRow r))).filterMap
              (emitRow (clean_headers row)) ++
              specReader (rest.dropWhile (fun r => !(isHeaderRow r))) := by
          simp [specReader, splitSections, hH]
        rw [h1, readGo_some, h2,
          ih _ (le_trans (dropWhile_length_le _ _) (Nat.le_of_succ_le_succ h))]
      · have hH' : isHeaderRow row = false := by simpa using hH
        have h1 : readGo none (row :: rest) = readGo none rest := by
          by_cases he : row.isEmpty = true
          · simp [readGo, he]
          · simp [readGo, he, hH']
        have h2 : specReader (row :: rest) = specReader rest := by
          simp [specReader, splitSections, hH']
        rw [h1, h2]
        exact ih rest (Nat.le_of_succ_le_succ h)

/-- Folding `maxStep` from a merged seed agrees with folding from the
second seed and comparing the result with the first. -/
theorem foldl_maxStep_comm : ∀ (xs : List RemoteItem) (x y : RemoteItem),
    xs.foldl maxStep (maxStep x y) =
      if (xs.foldl maxStep y).lastModified ≤ x.lastModified then x
      else xs.foldl maxStep y := by
  intro xs
  induction xs with
  | nil =>
    intro x y
    simp only [List.foldl_nil, maxStep]
    split_ifs <;> first | rfl | (exfalso; omega)
  | cons a as ih =>
    intro x y
    simp only [List.foldl_cons]
    rw [ih (maxStep x y) a, ih y a]
    simp only [maxStep]
    split_ifs <;> first | rfl | (exfalso; omega)

/-- The head of the stable descending sort is the first maximum. -/
theorem sortDesc_head : ∀ l : List RemoteItem, (sortDesc l).head? = firstMax l := by
  intro l
  induction l with
  | nil => rfl
  | cons x xs ih =>
    have hfold : sortDesc (x :: xs) = insertDesc x (sortDesc xs) := rfl
    rw [hfold]
    cases hs : sortDesc xs with
    | nil =>
      have hnone : firstMax xs = none := by rw [← ih, hs]; rfl
      have hxs : xs = [] := by
        cases xs with
        | nil => rfl
        | cons a as => simp [firstMax] at hnone
      subst hxs
      simp [insertDesc, firstMax]
    | cons y ys =>
      have hy : firstMax xs = some y := by rw [← ih, hs]; rfl
      cases xs with
      | nil => simp [firstMax] at hy
      | cons a as =>
        have hya : as.foldl maxStep a = y := by
          simpa [firstMax] using hy
        have hfm : firstMax (x :: a :: as) =
            some (if y.lastModified ≤ x.lastModified then x else y) := by
          simp only [firstMax, List.foldl_cons]
          rw [foldl_maxStep_comm as x a, hya]
        rw [hfm]
        simp only [insertDesc]
        by_cases h : y.lastModified ≤ x.lastModified <;> simp [h]

/-- Where the fold's result sits in the list: either it is the seed and
nothing beats the seed, or it occurs in the list, strictly beats the
seed and everything before its occurrence, and bounds everything. -/
theorem foldl_maxStep_decomp : ∀ (xs : List RemoteItem) (x : RemoteItem),
    (xs.foldl maxStep x = x ∧ ∀ j ∈ xs, j.lastModified ≤ x.lastModified) ∨
    (∃ pre post, xs = pre ++ (xs.foldl maxStep x) :: post ∧
      x.lastModified < (xs.foldl maxStep x).lastModified ∧
      (∀ j ∈ pre, j.lastModified < (xs.foldl maxStep x).lastModified) ∧
      (∀ j ∈ xs, j.lastModified ≤ (xs.foldl maxStep x).lastModified)) := by
  intro xs
  induction xs with
  | nil => intro x; exact Or.inl ⟨rfl, by simp⟩
  | cons a as ih =>
    intro x
    by_cases hxa : x.lastModified < a.lastModified
    · have hstep : maxStep x a = a := by simp [maxStep, hxa]
      have hfold : (a :: as).foldl maxStep x = as.foldl maxStep a := by
        simp [List.foldl_cons, hstep]
      rcases ih a with ⟨heq, hle⟩ | ⟨pre, post, hsplit, hlt, hpre, hall⟩
      · refine Or.inr ⟨[], as, ?_, ?_, ?_, ?_⟩
        · simp [hfold, heq]
        · simpa [hfold, heq] using hxa
        · simp
        · intro j hj
          rw [hfold, heq]
          rcases List.mem_cons.mp hj with h | h
          · exact h ▸ Nat.le_refl _
          · exact hle j h
      · refine Or.inr ⟨a :: pre, post, ?_, ?_, ?_, ?_⟩
        · rw [hfold, List.cons_append, ← hsplit]
        · rw [hfold]; exact Nat.lt_trans hxa hlt
        · intro j hj
          rw [hfold]
          rcases List.mem_cons.mp hj with h | h
          · rw [h]; exact hlt
          · exact hpre j h
        · intro j hj
          rw [hfold]
          rcases List.mem_cons.mp hj with h | h
          · rw [h]; exact Nat.le_of_lt hlt
          · exact hall j h
    · have hstep : maxStep x a = x := by simp [maxStep, hxa]
      have hfold : (a :: as).foldl maxStep x = as.foldl maxStep x := by
        simp [List.foldl_cons, hstep]
      rcases ih x with ⟨heq, hle⟩ | ⟨pre, post, hsplit, hlt, hpre, hall⟩
      · refine Or.inl ⟨by simp [hfold, heq], ?_⟩
        intro j hj
        rcases List.mem_cons.mp hj with h | h
        · exact h ▸ Nat.le_of_not_lt hxa
        · exact hle j h
      · refine Or.inr ⟨a :: pre, post, ?_, ?_, ?_, ?_⟩
        · rw [hfold, List.cons_append, ← hsplit]
        · rw [hfold]; exact hlt
        · intro j hj
          rw [hfold]
          rcases List.mem_cons.mp hj with h | h
          · rw [h]; exact Nat.lt_of_le_of_lt (Nat.le_of_not_lt hxa) hlt
          · exact hpre j h
        · intro j hj
          rw [hfold]
          rcases List.mem_cons.mp hj with h | h
          · rw [h]; exact Nat.le_of_lt (Nat.lt_of_le_of_lt (Nat.le_of_not_lt hxa) hlt)
          · exact hall j h

/-- The first maximum splits its list into a strictly-smaller prefix,
itself, and a bounded remainder. -/
theorem firstMax_decomp (l : List RemoteItem) (it : RemoteItem)
    (h : firstMax l = some it) :
    ∃ pre post, l = pre ++ it :: post ∧
      (∀ j ∈ pre, j.lastModified < it.lastModified) ∧
      (∀ j ∈ l, j.lastModified ≤ it.lastModified) := by
  cases l with
  | nil => simp [firstMax] at h
  | cons x xs =>
    have hit : xs.foldl maxStep x = it := by simpa [firstMax] using h
    rcases foldl_maxStep_decomp xs x with ⟨heq, hle⟩ | ⟨pre, post, hsplit, hlt, hpre, hall⟩
    · have hx : it = x := by rw [← hit, heq]
      refine ⟨[], xs, by simp [hx], by simp, ?_⟩
      intro j hj
      rw [hx]
      rcases List.mem_cons.mp hj with h1 | h1
      · rw [h1]
      · exact hle j h1
    · rw [hit] at hsplit hlt hpre hall
      refine ⟨x :: pre, post, by rw [List.cons_append, ← hsplit], ?_, ?_⟩
      · intro j hj
        rcases List.mem_cons.mp hj with h1 | h1
        · rw [h1]; exact hlt
        · exact hpre j h1
      · intro j hj
        rcases List.mem_cons.mp hj with h1 | h1
        · rw [h1]; exact Nat.le_of_lt hlt
        · exact hall j h1

/-- Membership is preserved by sorted insertion of a string. -/
theorem mem_insStr (x y : String) : ∀ l : List String, x ∈ insStr y l ↔ x = y ∨ x ∈ l := by
  intro l
  induction l with
  | nil => simp [insStr]
  | cons a as ih =>
    by_cases h : strLe y a = true
    · simp [insStr, h]
    · simp only [insStr, h, if_false, Bool.false_eq_true, List.mem_cons, ih]
      tauto

/-- `sortStr` is a permutation in the membership sense. -/
theorem mem_sortStr (x : String) : ∀ l : List String, x ∈ sortStr l ↔ x ∈ l := by
  intro l
  induction l with
  | nil => simp [sortStr]
  | cons a as ih =>
    have : sortStr (a :: as) = insStr a (sortStr as) := rfl
    rw [this, mem_insStr, ih, List.mem_cons]

/-- The case-insensitive column lookup fails exactly when no physical
column lowers to the key. -/
theorem lookupLower_eq_none (cols : List String) (k : String) :
    lookupLower cols k = none ↔ ∀ c ∈ cols, ¬ pyLower c = k := by
  unfold lookupLower
  rw [Option.map_eq_none', List.find?_eq_none]
  constructor
  · intro h c hc
    have := h c (List.mem_reverse.mpr hc)
    simpa using this
  · intro h c hc
    have := h c (List.mem_reverse.mp hc)
    simpa using this

/-- A successful case-insensitive column lookup returns a member of the
column list that lowers to the key. -/
theorem lookupLower_eq_some (cols : List String) (k c : String)
    (h : lookupLower cols k = some c) : c ∈ cols ∧ pyLower c = k := by
  unfold lookupLower at h
  rw [Option.map_eq_some'] at h
  rcases h with ⟨p, hp, hpc⟩
  have hmem := List.mem_reverse.mp (List.mem_of_find?_eq_some hp)
  have hpred := List.find?_some hp
  subst hpc
  exact ⟨hmem, by simpa using hpred⟩

/-- If the first name match in a listing is a folder, it is also the
first name-and-folder match (anything earlier failing the folder test
still fails the plain name test). -/
theorem find?_name_folder (seg : String) (n i : String) (cs : List DriveItem) :
    ∀ l : List DriveItem,
      l.find? (fun it => it.itemName == seg) = some (.dir n i cs) →
      l.find? (fun it => it.itemName == seg && it.isFolder) = some (.dir n i cs) := by
  intro l
  induction l with
  | nil => intro h; simp [List.find?] at h
  | cons a l ih =>
    intro h
    by_cases ha : (a.itemName == seg) = true
    · have hfind : (a :: l).find? (fun it => it.itemName == seg) = some a := by
        simp [List.find?, ha]
      rw [hfind] at h
      have haeq : a = DriveItem.dir n i cs := by injection h
      subst haeq
      simp [List.find?, DriveItem.isFolder, ha]
    · have ha' : (a.itemName == seg) = false := by simpa using ha
      simp only [List.find?, ha', Bool.false_and] at h ⊢
      exact ih h

/-! ## Claim theorems -/

/-- C2: for every CSV stream, the reader emits exactly the data rows
following each `"Task Id"` header row up to (not including) the next
header row or end-of-stream — a header row itself is never emitted, rows
preceding the first header are skipped, empty physical rows are skipped,
and an emitted mapping with an empty `"Task Id"` value is discarded.
Stated as equality with `specReader`, the section-wise reformulation of
exactly that description. -/
theorem C2_reader_emits_sections (rows : List (List String)) :
    read_tend_multisection_csv rows = specReader rows :=
  readGo_none_aux rows.length rows (Nat.le_refl _)

/-- C7: the persisted payload of either group carries exactly the
group's fixed field subset — five columns for group A, seven for group B
— and in particular the `task_type` discriminant key appears in
neither. -/
theorem C7_payloads_exclude_discriminant (r : OutRec) :
    (ghPayload r).map Prod.fst =
      ["Tend ID", "Date", "Plant Name", "Variety", "Quantity"] ∧
    (rowPayload r).map Prod.fst =
      ["Tend ID", "Date", "Plant Name", "Variety", "Location", "Spacing",
        "Direct/Transplant"] ∧
    ((ghPayload r).map Prod.fst).contains "task_type" = false ∧
    ((rowPayload r).map Prod.fst).contains "task_type" = false :=
  ⟨rfl, rfl, rfl, rfl⟩

/-- C9: every POST change notification is answered with the fixed
acknowledgement and schedules exactly one background pipeline run
(`run_sync` with argument `None`); the response is a constant computed
before the scheduled run executes, hence independent of its outcome. -/
theorem C9_webhook_acknowledges_and_schedules_once (body : String) :
    graph_notifications body = (WebhookResponse.ok, [none]) ∧
    (graph_notifications body).2.length = 1 ∧
    ∀ env : Env, run_sync env none = mainRun env :=
  ⟨rfl, rfl, fun _ => rfl⟩

/-- C4: contrary to the claim, no exit path of the pipeline removes the
temporary download file: every trace of `mainRun` is free of removal
effects, while the concrete successful invocation `demoEnv` does create
the temporary file (and completes), so repeated invocations accumulate
temporary files. -/
theorem C4_temp_file_never_removed :
    (∀ env : Env, (mainRun env).1.filter isRemoveEff = []) ∧
    (mainRun demoEnv).1 =
      [Eff.createTemp "/tmp/tend.csv", Eff.upsert "gh_planting_log" 1] ∧
    (mainRun demoEnv).2 = Except.ok () := by
  refine ⟨?_, by rfl, by rfl⟩
  intro env
  unfold mainRun
  rcases hfe : fetch_latest_csv env.items with _ | it
  · rfl
  · simp only
    by_cases hr : (read_tend_multisection_csv (env.content it.id)).isEmpty
    · simp [hr, isRemoveEff]
    · simp only [hr]
      rcases ht : transform env.fb
          (dfColumns (read_tend_multisection_csv (env.content it.id)))
          (read_tend_multisection_csv (env.content it.id)) with e | norm
      · simp [isRemoveEff]
      · simp only [List.filter_append, List.filter_cons, List.filter_nil, isRemoveEff]
        split_ifs <;> simp [isRemoveEff]

/-- C6: date coercion is total and never raises — `NaN` and blank input
yield absence; otherwise the strict `%m/%d/%Y` parse is attempted first
(so `"03/14/2024"` becomes `"2024-03-14"`), then the permissive fallback
parse, and when both fail (as for `"not a date"`, where the fallback
raises, modelled as `none`) the result is absence rather than a row
failure. -/
theorem C6_parse_date_total (fb : String → Option Ymd) :
    parse_date fb PCell.na = none ∧
    (∀ v : String, pyStrip v = "" → parse_date fb (PCell.s v) = none) ∧
    parse_date fb (PCell.s "03/14/2024") = some "2024-03-14" ∧
    (∀ v d, strptime_mdY (pyStrip v) = some d →
      parse_date fb (PCell.s v) = some (isoDate d)) ∧
    (∀ v, pyStrip v ≠ "" → strptime_mdY (pyStrip v) = none →
      parse_date fb (PCell.s v) = (fb (pyStrip v)).map isoDate) ∧
    (∀ v, strptime_mdY (pyStrip v) = none → fb (pyStrip v) = none →
      parse_date fb (PCell.s v) = none) := by
  refine ⟨rfl, ?_, by rfl, ?_, ?_, ?_⟩
  · intro v h
    simp [parse_date, h]
  · intro v d h
    by_cases hv : pyStrip v = ""
    · rw [hv] at h
      have : strptime_mdY "" = none := by decide
      rw [this] at h
      exact absurd h (by simp)
    · simp [parse_date, hv, h]
  · intro v hv h
    simp [parse_date, hv, h]
  · intro v hs hf
    by_cases hv : pyStrip v = ""
    · simp [parse_date, hv]
    · simp [parse_date, hv, hs, hf]

/-- Witness for C6 at concrete inputs: the strict parse rejects
`"not a date"`, a fallback that also raises yields absence there, and
`"03/14/2024"` coerces to ISO form. -/
theorem C6_parse_date_total_witness :
    strptime_mdY (pyStrip "not a date") = none ∧
    parse_date (fun _ => none) (PCell.s "not a date") = none ∧
    parse_date (fun _ => none) (PCell.s "03/14/2024") = some "2024-03-14" := by
  refine ⟨by decide, ?_, ?_⟩
  · exact (C6_parse_date_total (fun _ => none)).2.2.2.2.2 "not a date" (by decide) rfl
  · exact (C6_parse_date_total (fun _ => none)).2.2.1

/-- C1: a normalized record (whose task type, by construction of the
transformer, is already stripped) goes to group A exactly when the
trimmed, lowercased discriminant is `"container sow"`, to group B
exactly when it is `"transplant"` or `"precision sow"` (with derived
labels `"Transplant"` and `"Direct"` respectively), the groups are
disjoint, and any other discriminant lands in neither. -/
theorem C1_router_partition (r : OutRec)
    (ht : ∀ t, r.taskType = some t → pyStrip t = t) :
    (routeA r = true ↔ ∃ t, r.taskType = some t ∧
      pyLower (pyStrip t) = "container sow") ∧
    (routeB r = true ↔ ∃ t, r.taskType = some t ∧
      (pyLower (pyStrip t) = "transplant" ∨ pyLower (pyStrip t) = "precision sow")) ∧
    (routeA r = true → routeB r = false) ∧
    (∀ t, r.taskType = some t → pyLower (pyStrip t) = "transplant" →
      map_direct_transplant r.taskType = some "Transplant") ∧
    (∀ t, r.taskType = some t → pyLower (pyStrip t) = "precision sow" →
      map_direct_transplant r.taskType = some "Direct") := by
  cases hr : r.taskType with
  | none =>
    refine ⟨by simp [routeA, hr], by simp [routeB, hr], by simp [routeA, hr], ?_, ?_⟩ <;>
      (intro t h; exact absurd h (by simp))
  | some t =>
    have htt : pyStrip t = t := ht t hr
    refine ⟨?_, ?_, ?_, ?_, ?_⟩
    · simp only [routeA, hr, beq_iff_eq]
      constructor
      · intro h
        exact ⟨t, rfl, by rw [htt]; exact h⟩
      · rintro ⟨u, hu, h⟩
        injection hu with hu
        rw [← hu, htt] at h
        exact h
    · simp only [routeB, hr, Bool.or_eq_true, beq_iff_eq]
      constructor
      · intro h
        refine ⟨t, rfl, ?_⟩
        rw [htt]
        exact h
      · rintro ⟨u, hu, h⟩
        injection hu with hu
        rw [← hu, htt] at h
        exact h
    · intro hA
      have hAl : pyLower t = "container sow" := by
        simpa [routeA, hr, beq_iff_eq] using hA
      simp [routeB, hr, hAl]
    · intro u hu hlbl
      injection hu with hu
      rw [← hu] at hlbl
      simp [map_direct_transplant, hlbl]
    · intro u hu hlbl
      injection hu with hu
      rw [← hu] at hlbl
      simp [map_direct_transplant, hlbl]

/-- Witness for C1 at concrete records: a mixed-case `"Container SOW"`
record is routed to group A, a `"Precision Sow"` record to group B with
derived label `"Direct"`. -/
theorem C1_router_partition_witness :
    (∀ t, (OutRec.mk (some "7") (some "Container SOW") none none none none
      (some "L") none).taskType = some t → pyStrip t = t) ∧
    routeA (OutRec.mk (some "7") (some "Container SOW") none none none none
      (some "L") none) = true ∧
    (∀ t, (OutRec.mk (some "8") (some "Precision Sow") none none none none
      (some "L") none).taskType = some t → pyStrip t = t) ∧
    routeB (OutRec.mk (some "8") (some "Precision Sow") none none none none
      (some "L") none) = true ∧
    map_direct_transplant (OutRec.mk (some "8") (some "Precision Sow") none none
      none none (some "L") none).taskType = some "Direct" := by
  have h0 : ∀ t, (OutRec.mk (some "7") (some "Container SOW") none none none none
      (some "L") none).taskType = some t → pyStrip t = t := by
    intro t h; injection h with h; rw [← h]; decide
  have h1 : ∀ t, (OutRec.mk (some "8") (some "Precision Sow") none none none none
      (some "L") none).taskType = some t → pyStrip t = t := by
    intro t h; injection h with h; rw [← h]; decide
  refine ⟨h0, ?_, h1, ?_, ?_⟩
  · exact (C1_router_partition _ h0).1.mpr ⟨"Container SOW", rfl, by decide⟩
  · exact (C1_router_partition _ h1).2.1.mpr ⟨"Precision Sow", rfl, Or.inr (by decide)⟩
  · exact (C1_router_partition _ h1).2.2.2.2 "Precision Sow" rfl (by decide)

/-- C3: resolution filters the listing to names ending in `".csv"`
case-insensitively; an empty filtered listing yields no file (the caller
then exits cleanly); otherwise a file is selected, it carries the
accepted suffix (so a non-matching name is never selected, however
recent), and its timestamp is maximal among the suffix matches. -/
theorem C3_suffix_filter_and_latest (items : List RemoteItem) :
    (list_csv_files items = [] → fetch_latest_csv items = none) ∧
    (∀ env : Env, env.items = items → list_csv_files items = [] →
      mainRun env = ([], Except.ok ())) ∧
    (list_csv_files items ≠ [] → ∃ it, fetch_latest_csv items = some it) ∧
    (∀ it, fetch_latest_csv items = some it →
      it ∈ list_csv_files items ∧ pyEndsWith (pyLower it.name) ".csv" = true ∧
      ∀ j ∈ list_csv_files items, j.lastModified ≤ it.lastModified) := by
  have hhead : fetch_latest_csv items = firstMax (list_csv_files items) := by
    unfold fetch_latest_csv
    exact sortDesc_head _
  have hnone : list_csv_files items = [] → fetch_latest_csv items = none := by
    intro h
    rw [hhead, h]
    rfl
  refine ⟨hnone, ?_, ?_, ?_⟩
  · intro env henv h
    unfold mainRun
    rw [henv, hnone h]
  · intro h
    rcases hne : list_csv_files items with _ | ⟨x, xs⟩
    · exact absurd hne h
    · exact ⟨_, by rw [hhead, hne]; rfl⟩
  · intro it hit
    rw [hhead] at hit
    rcases firstMax_decomp _ _ hit with ⟨pre, post, hsplit, hpre, hall⟩
    have hmem : it ∈ list_csv_files items := by
      rw [hsplit]
      exact List.mem_append_right _ (List.mem_cons_self _ _)
    have hsuf : pyEndsWith (pyLower it.name) ".csv" = true := by
      have hm2 : it ∈ items.filter (fun j : RemoteItem => pyEndsWith (pyLower j.name) ".csv") := by
        simpa [list_csv_files] using hmem
      simpa using List.of_mem_filter hm2
    exact ⟨hmem, hsuf, hall⟩

/-- Witness for C3: with one `.CSV` file (most recent among matches),
one non-matching `.txt` that is globally most recent, and an older
`.csv`, resolution keeps the suffix matches and selects the `.CSV`
entry, never the `.txt`. -/
theorem C3_suffix_filter_and_latest_witness :
    list_csv_files [RemoteItem.mk "b.CSV" "i1" "d" 5, RemoteItem.mk "a.txt" "i2" "d" 9,
      RemoteItem.mk "c.csv" "i3" "d" 3] ≠ [] ∧
    fetch_latest_csv [RemoteItem.mk "b.CSV" "i1" "d" 5, RemoteItem.mk "a.txt" "i2" "d" 9,
      RemoteItem.mk "c.csv" "i3" "d" 3] = some (RemoteItem.mk "b.CSV" "i1" "d" 5) ∧
    (RemoteItem.mk "b.CSV" "i1" "d" 5 ∈ list_csv_files [RemoteItem.mk "b.CSV" "i1" "d" 5,
      RemoteItem.mk "a.txt" "i2" "d" 9, RemoteItem.mk "c.csv" "i3" "d" 3] ∧
     pyEndsWith (pyLower (RemoteItem.mk "b.CSV" "i1" "d" 5).name) ".csv" = true ∧
     ∀ j ∈ list_csv_files [RemoteItem.mk "b.CSV" "i1" "d" 5, RemoteItem.mk "a.txt" "i2" "d" 9,
       RemoteItem.mk "c.csv" "i3" "d" 3], j.lastModified ≤
         (RemoteItem.mk "b.CSV" "i1" "d" 5).lastModified) := by
  refine ⟨by decide, by decide, ?_⟩
  exact (C3_suffix_filter_and_latest _).2.2.2 _ (by decide)

/-- C10: selection is the head of a stable descending sort, hence the
deterministic first maximum of the filtered listing: the selected entry
splits the suffix matches into a strictly-older prefix (so on ties the
entry earliest in listing order wins), itself, and a no-younger
remainder. -/
theorem C10_tie_breaks_by_listing_order (items : List RemoteItem) :
    fetch_latest_csv items = firstMax (list_csv_files items) ∧
    (∀ it, fetch_latest_csv items = some it →
      ∃ pre post, list_csv_files items = pre ++ it :: post ∧
        (∀ j ∈ pre, j.lastModified < it.lastModified) ∧
        (∀ j ∈ list_csv_files items, j.lastModified ≤ it.lastModified)) := by
  have hhead : fetch_latest_csv items = firstMax (list_csv_files items) := by
    unfold fetch_latest_csv
    exact sortDesc_head _
  refine ⟨hhead, ?_⟩
  intro it hit
  rw [hhead] at hit
  exact firstMax_decomp _ _ hit

/-- Witness for C10: two files tie at the maximal timestamp; the one
earlier in the listing is selected. -/
theorem C10_tie_breaks_by_listing_order_witness :
    fetch_latest_csv [RemoteItem.mk "first.csv" "1" "d" 5, RemoteItem.mk "second.csv" "2" "d" 5,
      RemoteItem.mk "old.csv" "3" "d" 3] = some (RemoteItem.mk "first.csv" "1" "d" 5) ∧
    (∃ pre post, list_csv_files [RemoteItem.mk "first.csv" "1" "d" 5,
        RemoteItem.mk "second.csv" "2" "d" 5, RemoteItem.mk "old.csv" "3" "d" 3] =
        pre ++ (RemoteItem.mk "first.csv" "1" "d" 5) :: post ∧
      (∀ j ∈ pre, j.lastModified < (RemoteItem.mk "first.csv" "1" "d" 5).lastModified) ∧
      (∀ j ∈ list_csv_files [RemoteItem.mk "first.csv" "1" "d" 5,
        RemoteItem.mk "second.csv" "2" "d" 5, RemoteItem.mk "old.csv" "3" "d" 3],
        j.lastModified ≤ (RemoteItem.mk "first.csv" "1" "d" 5).lastModified)) := by
  refine ⟨by decide, ?_⟩
  exact (C10_tie_breaks_by_listing_order _).2 _ (by decide)

/-- C8: whenever a direct path lookup of the (non-empty) segment path
would succeed on a folder structure, the fallback segment-by-segment
walk — matching each segment in order against folder children and
descending by identifier — reaches the same leaf-folder children
listing. -/
theorem C8_segment_walk_refines_direct_lookup :
    ∀ (segs : List String) (items L : List DriveItem), segs ≠ [] →
      directLookup segs items = some L → segmentWalk segs items = some L := by
  intro segs
  induction segs with
  | nil =>
    intro items L h _
    exact absurd rfl h
  | cons seg rest ih =>
    intro items L _ hd
    have hd' : (match items.find? (fun it => it.itemName == seg) with
        | some (.dir _ _ cs) => directLookup rest cs
        | _ => none) = some L := hd
    rcases hf : items.find? (fun it => it.itemName == seg) with _ | it
    · rw [hf] at hd'
      exact absurd hd' (by simp)
    · cases it with
      | file n i =>
        rw [hf] at hd'
        exact absurd hd' (by simp)
      | dir n i cs =>
        rw [hf] at hd'
        have hwf := find?_name_folder seg n i cs items hf
        cases rest with
        | nil =>
          have hcs : cs = L := by
            simpa [directLookup] using hd'
          have heq : segmentWalk [seg] items =
              (match items.find? (fun it => it.itemName == seg && it.isFolder) with
               | some (.dir _ _ cs2) => if ([] : List String).isEmpty then some cs2
                 else segmentWalk [] cs2
               | _ => none) := rfl
          rw [heq, hwf]
          exact congrArg some hcs
        | cons s2 r2 =>
          have hrec := ih cs L (by simp) hd'
          have heq : segmentWalk (seg :: s2 :: r2) items =
              (match items.find? (fun it => it.itemName == seg && it.isFolder) with
               | some (.dir _ _ cs2) => if (s2 :: r2).isEmpty then some cs2
                 else segmentWalk (s2 :: r2) cs2
               | _ => none) := rfl
          rw [heq, hwf]
          exact hrec

/-- Witness for C8 on a concrete two-level folder tree: the direct
lookup of `Garden/Ops` succeeds and the segment walk returns the same
leaf listing. -/
theorem C8_segment_walk_refines_direct_lookup_witness :
    (["Garden", "Ops"] : List String) ≠ [] ∧
    directLookup ["Garden", "Ops"]
      [DriveItem.file "a" "f1",
       DriveItem.dir "Garden" "d1"
         [DriveItem.dir "Ops" "d2" [DriveItem.file "x.csv" "f3"]]] =
      some [DriveItem.file "x.csv" "f3"] ∧
    segmentWalk ["Garden", "Ops"]
      [DriveItem.file "a" "f1",
       DriveItem.dir "Garden" "d1"
         [DriveItem.dir "Ops" "d2" [DriveItem.file "x.csv" "f3"]]] =
      some [DriveItem.file "x.csv" "f3"] := by
  refine ⟨by simp, rfl, ?_⟩
  exact C8_segment_walk_refines_direct_lookup ["Garden", "Ops"] _ _ (by simp) rfl

/-- C5: the transformer validates the six required logical columns once,
case-insensitively, against the aggregate column list before any per-row
work — if any is unmatched the whole run aborts with an error naming
every missing logical column (and only those) and listing the physical
columns actually present; with all required columns matched, an
unmatched optional spacing column never aborts and instead leaves the
`Spacing` field absent in every output record. -/
theorem C5_column_validation (fb : String → Option Ymd) (cols : List String)
    (rows : List RowDict) :
    ((∃ rc ∈ requiredBase, ∀ c ∈ cols, pyLower c ≠ pyLower rc) →
      transform fb cols rows = Except.error
        { missing := sortStr (missingRequired cols), available := sortStr cols } ∧
      (∀ x, x ∈ sortStr (missingRequired cols) ↔
        x ∈ requiredBase ∧ ∀ c ∈ cols, pyLower c ≠ pyLower x) ∧
      (∀ c, c ∈ sortStr cols ↔ c ∈ cols)) ∧
    ((∀ rc ∈ requiredBase, ∃ c ∈ cols, pyLower c = pyLower rc) →
      (∀ c ∈ cols, pyLower c ≠ "in-row spacing" ∧ pyLower c ≠ "in row spacing") →
      ∃ out, transform fb cols rows = Except.ok out ∧
        ∀ r ∈ out, r.spacing = none) := by
  constructor
  · rintro ⟨rc, hrc, hno⟩
    have hrcmem : rc ∈ missingRequired cols := by
      apply List.mem_filter.mpr
      refine ⟨hrc, ?_⟩
      rw [Option.isNone_iff_eq_none, lookupLower_eq_none]
      exact hno
    have hne : (missingRequired cols).isEmpty = false := by
      rcases hm : missingRequired cols with _ | ⟨a, as⟩
      · rw [hm] at hrcmem
        simp at hrcmem
      · rfl
    refine ⟨?_, ?_, fun c => mem_sortStr c cols⟩
    · unfold transform
      rw [hne]
      rfl
    · intro x
      rw [mem_sortStr]
      unfold missingRequired
      rw [List.mem_filter]
      constructor
      · rintro ⟨hx, hnone⟩
        rw [Option.isNone_iff_eq_none, lookupLower_eq_none] at hnone
        exact ⟨hx, hnone⟩
      · rintro ⟨hx, hnone⟩
        refine ⟨hx, ?_⟩
        rw [Option.isNone_iff_eq_none, lookupLower_eq_none]
        exact hnone
  · intro hall hnos
    have hmiss : missingRequired cols = [] := by
      unfold missingRequired
      rw [List.filter_eq_nil_iff]
      intro rc hrc
      rcases hall rc hrc with ⟨c, hc, hceq⟩
      rw [Option.isNone_iff_eq_none, lookupLower_eq_none]
      intro hforall
      exact hforall c hc hceq
    have hspac : findSpacingCol cols = none := by
      have h1 : lookupLower cols "in-row spacing" = none := by
        rw [lookupLower_eq_none]
        intro c hc
        exact (hnos c hc).1
      have h2 : lookupLower cols "in row spacing" = none := by
        rw [lookupLower_eq_none]
        intro c hc
        exact (hnos c hc).2
      unfold findSpacingCol
      rw [h1]
      exact h2
    have htr : transform fb cols rows = Except.ok ((rows.map (transformRow fb
        ((lookupLower cols "task id").getD "") ((lookupLower cols "task type").getD "")
        ((lookupLower cols "start date").getD "") ((lookupLower cols "planting").getD "")
        ((lookupLower cols "seeds needed").getD "") ((lookupLower cols "location").getD "")
        (findSpacingCol cols))).filter (fun r => r.tendId ≠ none)) := by
      unfold transform
      rw [hmiss]
      rfl
    refine ⟨_, htr, ?_⟩
    intro r hr
    rcases List.mem_map.mp (List.mem_of_mem_filter hr) with ⟨row, hrow, hreq⟩
    rw [← hreq]
    simp [transformRow, hspac]

/-- Witness for C5: with only `"Task Id"` present the run aborts naming
the other five required columns; with all six required columns present
and no spacing column, the run succeeds and every output record has an
absent `Spacing`. -/
theorem C5_column_validation_witness :
    (∃ rc ∈ requiredBase, ∀ c ∈ (["Task Id"] : List String), pyLower c ≠ pyLower rc) ∧
    transform (fun _ => none) ["Task Id"] [] = Except.error
      { missing := sortStr (missingRequired ["Task Id"]), available := sortStr ["Task Id"] } ∧
    (∀ rc ∈ requiredBase, ∃ c ∈ (["Task Id", "Task Type", "Start Date", "Planting",
      "Seeds Needed", "Location"] : List String), pyLower c = pyLower rc) ∧
    (∃ out, transform (fun _ => none) ["Task Id", "Task Type", "Start Date", "Planting",
        "Seeds Needed", "Location"] [[("Task Id", "1"), ("Task Type", "Transplant")]] =
          Except.ok out ∧
      ∀ r ∈ out, r.spacing = none) := by
  refine ⟨⟨"Task Type", by decide, by decide⟩, ?_, by decide, ?_⟩
  · exact ((C5_column_validation (fun _ => none) ["Task Id"] []).1
      ⟨"Task Type", by decide, by decide⟩).1
  · exact (C5_column_validation (fun _ => none) _ _).2 (by decide) (by decide)
